import Mathlib

/-!
Verification of the NX_Templates server-side game services.

Shallow embedding of the TypeScript services under `src/server/services`
(ResourceService, LootService, NPCService, MessageService, EventService,
PlayerDataService).  TypeScript `number` values are modelled as rationals
(`ℚ`), JavaScript `Map` objects as functions into `Option`, and the
engine's random draws (`math.random`) as explicit oracle parameters.
-/

namespace NXT

/-- Functional update of a string-keyed map, modelling `Map.set`. -/
def mapSet (m : String → Option ℚ) (k : String) (v : ℚ) : String → Option ℚ :=
  fun k2 => if k2 = k then some v else m k2

/-! ## ResourceService (src/server/services/ResourceService.ts)

The per-player record `PlayerResources` holds the `resources` and
`maxResources` maps (keyed by resource key).  The service-level
`playerResources : Map<number, PlayerResources>` lookup returning
`undefined` is modelled by the `Option` result of each operation:
`none` corresponds to the TypeScript method returning `false`. -/

structure PlayerResources where
  resources : String → Option ℚ
  maxResources : String → Option ℚ

/-- Events published by `onResourceChanged` during one mutation:
`resourceChanged`, `resourceDepleted`, `resourceLow`. -/
structure FiredEvents where
  changed : Bool
  depleted : Bool
  low : Bool
  deriving DecidableEq

/-- Embedding of `onResourceChanged` (ResourceService.ts lines 242-261):
always reports the change, fires depletion when `newValue <= 0` and the
low-resource warning when `newValue / maxValue <= 0.2`.  The guard
`if (meta)` on the TypeScript side always passes because
`ResourceMetaRecord` is a total `Record<ResourceKey, ResourceMeta>`. -/
def onResourceChanged (newValue maxValue : ℚ) : FiredEvents :=
  { changed := true
  , depleted := decide (newValue ≤ 0)
  , low := decide (newValue / maxValue ≤ 1/5) }

/-- Embedding of `setPlayerResource`: clamp the value into `[0, max]`,
store it, and publish through `onResourceChanged`.  A missing max entry
returns `none` (the TypeScript `return false`). -/
def setPlayerResource (st : PlayerResources) (k : String) (value : ℚ) :
    Option (PlayerResources × FiredEvents) :=
  match st.maxResources k with
  | none => none
  | some maxValue =>
    let clampedValue := max 0 (min value maxValue)
    some ({ st with resources := mapSet st.resources k clampedValue },
      onResourceChanged clampedValue maxValue)

/-- Embedding of `modifyPlayerResource`: read the current value and call
`setPlayerResource` with `current + delta`. -/
def modifyPlayerResource (st : PlayerResources) (k : String) (delta : ℚ) :
    Option (PlayerResources × FiredEvents) :=
  match st.resources k with
  | none => none
  | some currentValue => setPlayerResource st k (currentValue + delta)

/-- Embedding of `hasEnoughResource`. -/
def hasEnoughResource (st : PlayerResources) (k : String) (requiredAmount : ℚ) : Bool :=
  match st.resources k with
  | none => false
  | some currentAmount => decide (currentAmount ≥ requiredAmount)

/-- Embedding of `consumeResource`: guard on `hasEnoughResource`, then
modify by `-amount`. -/
def consumeResource (st : PlayerResources) (k : String) (amount : ℚ) :
    Option (PlayerResources × FiredEvents) :=
  if hasEnoughResource st k amount then modifyPlayerResource st k (-amount)
  else none

/-- Embedding of `restoreResource`: set the resource to its stored max. -/
def restoreResource (st : PlayerResources) (k : String) :
    Option (PlayerResources × FiredEvents) :=
  match st.maxResources k with
  | none => none
  | some maxValue => setPlayerResource st k maxValue

/-- Embedding of `setPlayerMaxResource` (ResourceService.ts lines
131-153): store the new max unconditionally, and clamp the current value
down to it when it exceeds the new max.  No events are published and the
TypeScript method returns `true` whenever the player record exists. -/
def setPlayerMaxResource (st : PlayerResources) (k : String) (maxValue : ℚ) :
    PlayerResources :=
  let st1 : PlayerResources := { st with maxResources := mapSet st.maxResources k maxValue }
  match st.resources k with
  | some currentValue =>
    if currentValue > maxValue then
      { st1 with resources := mapSet st1.resources k maxValue }
    else st1
  | none => st1

/-- The ResourceLedger mutations named by the spec. -/
inductive ResourceOp where
  | set (value : ℚ)
  | modify (delta : ℚ)
  | consume (amount : ℚ)
  | restoreToMax
  | setMax (newMax : ℚ)

/-- Dispatch of one mutation; `setMax` publishes no events. -/
def applyResourceOp (st : PlayerResources) (k : String) :
    ResourceOp → Option (PlayerResources × FiredEvents)
  | ResourceOp.set value => setPlayerResource st k value
  | ResourceOp.modify delta => modifyPlayerResource st k delta
  | ResourceOp.consume amount => consumeResource st k amount
  | ResourceOp.restoreToMax => restoreResource st k
  | ResourceOp.setMax newMax =>
    some (setPlayerMaxResource st k newMax, ⟨false, false, false⟩)

/-- The spec's resource-ledger invariant: every stored max is
nonnegative, every stored current is nonnegative, and current never
exceeds the max stored under the same key. -/
def resourceInvariant (st : PlayerResources) : Prop :=
  (∀ k m, st.maxResources k = some m → 0 ≤ m) ∧
  (∀ k c, st.resources k = some c → 0 ≤ c) ∧
  (∀ k c m, st.resources k = some c → st.maxResources k = some m → c ≤ m)

/-- A concrete ledger record: Health at 100 with max 100. -/
def resourceStateH : PlayerResources :=
  { resources := fun k => if k = "Health" then some 100 else none
  , maxResources := fun k => if k = "Health" then some 100 else none }

/-- Characterization of a successful `setPlayerResource`: the max map is
untouched, the key receives the clamped value, and the published events
are those of `onResourceChanged` at the clamped value. -/
theorem setPlayerResource_spec {st : PlayerResources} {k : String} {v : ℚ}
    {st2 : PlayerResources} {ev : FiredEvents}
    (h : setPlayerResource st k v = some (st2, ev)) :
    ∃ m0, st.maxResources k = some m0 ∧
      st2.maxResources = st.maxResources ∧
      st2.resources = mapSet st.resources k (max 0 (min v m0)) ∧
      ev = onResourceChanged (max 0 (min v m0)) m0 := by
  unfold setPlayerResource at h
  cases hm : st.maxResources k with
  | none => rw [hm] at h; exact absurd h (by simp)
  | some m0 =>
    rw [hm] at h
    simp only [Option.some.injEq, Prod.mk.injEq] at h
    obtain ⟨hst2, hev⟩ := h
    exact ⟨m0, rfl, by rw [← hst2], by rw [← hst2], hev.symm⟩

/-- A successful `setPlayerResource` preserves the ledger invariant. -/
theorem setPlayerResource_invariant {st : PlayerResources} {k : String} {v : ℚ}
    {st2 : PlayerResources} {ev : FiredEvents}
    (hinv : resourceInvariant st)
    (h : setPlayerResource st k v = some (st2, ev)) :
    resourceInvariant st2 := by
  obtain ⟨hmax, hcur, hle⟩ := hinv
  obtain ⟨m0, hm0, hmaxeq, hreseq, -⟩ := setPlayerResource_spec h
  have hm0nonneg : 0 ≤ m0 := hmax k m0 hm0
  refine ⟨by rw [hmaxeq]; exact hmax, ?_, ?_⟩
  · intro k2 c hc
    rw [hreseq] at hc
    unfold mapSet at hc
    by_cases hk : k2 = k
    · rw [if_pos hk] at hc
      injection hc with hc
      subst hc
      exact le_max_left 0 _
    · rw [if_neg hk] at hc
      exact hcur k2 c hc
  · intro k2 c m hc hm
    rw [hreseq] at hc
    rw [hmaxeq] at hm
    unfold mapSet at hc
    by_cases hk : k2 = k
    · rw [if_pos hk] at hc
      injection hc with hc
      subst hc
      subst hk
      rw [hm0] at hm
      injection hm with hm
      subst hm
      exact max_le hm0nonneg (min_le_right v m0)
    · rw [if_neg hk] at hc
      exact hle k2 c m hc hm

/-- The invariant on `resourceStateH` holds. -/
theorem resourceStateH_invariant : resourceInvariant resourceStateH := by
  refine ⟨?_, ?_, ?_⟩
  · intro k m hm
    simp only [resourceStateH] at hm
    by_cases hk : k = "Health"
    · rw [if_pos hk] at hm; injection hm with hm; subst hm; norm_num
    · rw [if_neg hk] at hm; exact absurd hm (by simp)
  · intro k c hc
    simp only [resourceStateH] at hc
    by_cases hk : k = "Health"
    · rw [if_pos hk] at hc; injection hc with hc; subst hc; norm_num
    · rw [if_neg hk] at hc; exact absurd hc (by simp)
  · intro k c m hc hm
    simp only [resourceStateH] at hc hm
    by_cases hk : k = "Health"
    · rw [if_pos hk] at hc; rw [if_pos hk] at hm
      injection hc with hc; injection hm with hm
      subst hc; subst hm; norm_num
    · rw [if_neg hk] at hc; exact absurd hc (by simp)

/-- Field-level description of `setPlayerMaxResource`: the max map gets
the new ceiling at the key, and the current value is clamped down to it
exactly when it exceeded the new ceiling. -/
theorem setPlayerMaxResource_fields (st : PlayerResources) (k : String) (newMax : ℚ) :
    (setPlayerMaxResource st k newMax).maxResources = mapSet st.maxResources k newMax ∧
    (setPlayerMaxResource st k newMax).resources =
      (match st.resources k with
       | some currentValue =>
         if currentValue > newMax then mapSet st.resources k newMax else st.resources
       | none => st.resources) := by
  unfold setPlayerMaxResource
  cases st.resources k with
  | none => exact ⟨rfl, rfl⟩
  | some currentValue =>
    by_cases hgt : currentValue > newMax
    · simp only [if_pos hgt]; exact ⟨trivial, trivial⟩
    · simp only [if_neg hgt]; exact ⟨trivial, trivial⟩

/-- With a nonnegative new ceiling, `setPlayerMaxResource` preserves the
ledger invariant. -/
theorem setPlayerMaxResource_invariant {st : PlayerResources} {k : String} {newMax : ℚ}
    (hinv : resourceInvariant st) (hnm : 0 ≤ newMax) :
    resourceInvariant (setPlayerMaxResource st k newMax) := by
  obtain ⟨hmax, hcur, hle⟩ := hinv
  obtain ⟨hmx, hrs⟩ := setPlayerMaxResource_fields st k newMax
  refine ⟨?_, ?_, ?_⟩
  · intro k2 m hm
    rw [hmx] at hm
    unfold mapSet at hm
    by_cases hk : k2 = k
    · rw [if_pos hk] at hm; injection hm with hm; subst hm; exact hnm
    · rw [if_neg hk] at hm; exact hmax k2 m hm
  · intro k2 c hc
    rw [hrs] at hc
    cases hres : st.resources k with
    | none => simp only [hres] at hc; exact hcur k2 c hc
    | some cur =>
      simp only [hres] at hc
      by_cases hgt : cur > newMax
      · rw [if_pos hgt] at hc
        unfold mapSet at hc
        by_cases hk : k2 = k
        · rw [if_pos hk] at hc; injection hc with hc; subst hc; exact hnm
        · rw [if_neg hk] at hc; exact hcur k2 c hc
      · rw [if_neg hgt] at hc; exact hcur k2 c hc
  · intro k2 c m hc hm
    rw [hrs] at hc
    rw [hmx] at hm
    unfold mapSet at hm
    cases hres : st.resources k with
    | none =>
      simp only [hres] at hc
      by_cases hk : k2 = k
      · subst hk; rw [hres] at hc; exact absurd hc (by simp)
      · rw [if_neg hk] at hm; exact hle k2 c m hc hm
    | some cur =>
      simp only [hres] at hc
      by_cases hk : k2 = k
      · rw [if_pos hk] at hm; injection hm with hm
        subst hk
        by_cases hgt : cur > newMax
        · rw [if_pos hgt] at hc
          unfold mapSet at hc
          rw [if_pos rfl] at hc
          injection hc with hc
          subst hc; subst hm
          exact le_refl _
        · rw [if_neg hgt] at hc
          rw [hres] at hc
          injection hc with hc
          subst hc; subst hm
          exact le_of_not_lt hgt
      · rw [if_neg hk] at hm
        by_cases hgt : cur > newMax
        · rw [if_pos hgt] at hc
          unfold mapSet at hc
          rw [if_neg hk] at hc
          exact hle k2 c m hc hm
        · rw [if_neg hgt] at hc
          exact hle k2 c m hc hm

/-- C2 counterexample: starting from Health 100/100, `setMax` with the
negative ceiling -10 stores current = -10, leaving the pair outside the
claimed range `0 ≤ current ≤ max`. -/
theorem setMax_negative_ceiling_counterexample :
    (setPlayerMaxResource resourceStateH "Health" (-10)).resources "Health" = some (-10)
    ∧ ¬ (0 : ℚ) ≤ -10 := by
  constructor
  · rfl
  · norm_num

/-- C2 (amended): every ResourceLedger mutation (set, modify, consume,
restoreToMax, setMax) preserves `0 ≤ current ≤ max` for every key,
provided a `setMax` supplies a nonnegative new ceiling; a negative
ceiling is clamped onto the current value and breaks the lower bound. -/
theorem resource_mutations_preserve_invariant (st : PlayerResources) (k : String)
    (op : ResourceOp) (st2 : PlayerResources) (ev : FiredEvents)
    (hinv : resourceInvariant st)
    (hsetMax : ∀ x, op = ResourceOp.setMax x → 0 ≤ x)
    (happly : applyResourceOp st k op = some (st2, ev)) :
    resourceInvariant st2 := by
  cases op with
  | set v => exact setPlayerResource_invariant hinv happly
  | modify d =>
    unfold applyResourceOp modifyPlayerResource at happly
    cases hres : st.resources k with
    | none => rw [hres] at happly; exact absurd happly (by simp)
    | some cur => rw [hres] at happly; exact setPlayerResource_invariant hinv happly
  | consume a =>
    simp only [applyResourceOp] at happly
    unfold consumeResource at happly
    by_cases hhas : hasEnoughResource st k a = true
    · rw [if_pos hhas] at happly
      unfold modifyPlayerResource at happly
      cases hres : st.resources k with
      | none => rw [hres] at happly; exact absurd happly (by simp)
      | some cur => rw [hres] at happly; exact setPlayerResource_invariant hinv happly
    · rw [if_neg hhas] at happly; exact absurd happly (by simp)
  | restoreToMax =>
    unfold applyResourceOp restoreResource at happly
    cases hmx : st.maxResources k with
    | none => rw [hmx] at happly; exact absurd happly (by simp)
    | some m => rw [hmx] at happly; exact setPlayerResource_invariant hinv happly
  | setMax x =>
    unfold applyResourceOp at happly
    simp only [Option.some.injEq, Prod.mk.injEq] at happly
    obtain ⟨h1, -⟩ := happly
    exact h1 ▸ setPlayerMaxResource_invariant hinv (hsetMax x rfl)

/-- C2 witness: the invariant holds on the concrete Health 100/100 state
and is preserved by `set 150` (which clamps the value to the max). -/
theorem resource_mutations_invariant_witness :
    resourceInvariant resourceStateH ∧
    resourceInvariant
      { resourceStateH with
        resources := mapSet resourceStateH.resources "Health" (max 0 (min 150 100)) } :=
  ⟨resourceStateH_invariant,
   resource_mutations_preserve_invariant resourceStateH "Health" (ResourceOp.set 150) _ _
     resourceStateH_invariant (fun x h => by cases h) rfl⟩

/-- Characterization of a successful `setPlayerResource` in terms of the
value it stored: the new current is nonnegative and the published events
are `onResourceChanged` at the stored current and the key's max. -/
theorem setPlayerResource_events {st : PlayerResources} {k : String} {v : ℚ}
    {st2 : PlayerResources} {ev : FiredEvents} {c m : ℚ}
    (h : setPlayerResource st k v = some (st2, ev))
    (hc : st2.resources k = some c) (hm : st2.maxResources k = some m) :
    0 ≤ c ∧ ev = onResourceChanged c m := by
  obtain ⟨m0, hm0, hmaxeq, hreseq, hev⟩ := setPlayerResource_spec h
  rw [hreseq] at hc
  unfold mapSet at hc
  rw [if_pos rfl] at hc
  injection hc with hc
  rw [hmaxeq, hm0] at hm
  injection hm with hm
  subst hc; subst hm; subst hev
  exact ⟨le_max_left 0 _, rfl⟩

/-- C3: on every successful set/modify/consume/restoreToMax mutation,
`resourceChanged` is published, `resourceDepleted` is published exactly
when the stored value is 0, and `resourceLow` exactly when the stored
value divided by the (positive) max is at most 0.2.  The pre-mutation
state is arbitrary, so a qualifying mutation re-fires the events even if
the condition already held before (level-triggered). -/
theorem resource_threshold_events (st : PlayerResources) (k : String)
    (op : ResourceOp) (st2 : PlayerResources) (ev : FiredEvents) (c m : ℚ)
    (hop : ∀ x, op ≠ ResourceOp.setMax x)
    (happly : applyResourceOp st k op = some (st2, ev))
    (hc : st2.resources k = some c)
    (hm : st2.maxResources k = some m)
    (_hmpos : 0 < m) :
    ev.changed = true ∧ (ev.depleted = true ↔ c = 0) ∧ (ev.low = true ↔ c / m ≤ 1/5) := by
  have key : 0 ≤ c ∧ ev = onResourceChanged c m := by
    cases op with
    | set v => exact setPlayerResource_events happly hc hm
    | modify d =>
      unfold applyResourceOp modifyPlayerResource at happly
      cases hres : st.resources k with
      | none => rw [hres] at happly; exact absurd happly (by simp)
      | some cur => rw [hres] at happly; exact setPlayerResource_events happly hc hm
    | consume a =>
      simp only [applyResourceOp] at happly
      unfold consumeResource at happly
      by_cases hhas : hasEnoughResource st k a = true
      · rw [if_pos hhas] at happly
        unfold modifyPlayerResource at happly
        cases hres : st.resources k with
        | none => rw [hres] at happly; exact absurd happly (by simp)
        | some cur => rw [hres] at happly; exact setPlayerResource_events happly hc hm
      · rw [if_neg hhas] at happly; exact absurd happly (by simp)
    | restoreToMax =>
      unfold applyResourceOp restoreResource at happly
      cases hmx : st.maxResources k with
      | none => rw [hmx] at happly; exact absurd happly (by simp)
      | some mv => rw [hmx] at happly; exact setPlayerResource_events happly hc hm
    | setMax x => exact absurd rfl (hop x)
  obtain ⟨hcnonneg, hev⟩ := key
  subst hev
  refine ⟨rfl, ?_, ?_⟩
  · simp only [onResourceChanged, decide_eq_true_eq]
    constructor
    · intro h0; exact le_antisymm h0 hcnonneg
    · intro h0; rw [h0]
  · simp only [onResourceChanged, decide_eq_true_eq]

/-- C3 witness: setting Health to 10 out of 100 fires the change event,
no depletion (10 is not 0), and the low warning (10/100 is at most 0.2). -/
theorem resource_threshold_events_witness :
    (onResourceChanged (max 0 (min 10 100)) 100).changed = true
    ∧ ((onResourceChanged (max 0 (min 10 100)) 100).depleted = true
        ↔ (max 0 (min 10 100) : ℚ) = 0)
    ∧ ((onResourceChanged (max 0 (min 10 100)) 100).low = true
        ↔ (max 0 (min 10 100) : ℚ) / 100 ≤ 1/5) :=
  resource_threshold_events resourceStateH "Health" (ResourceOp.set 10) _ _ _ _
    (fun x h => by cases h) rfl rfl rfl (by norm_num)

/-! ## LootService (src/server/services/LootService.ts)

The pure generation algorithm `generateLootFromTable` is embedded with
the engine's random draws passed in as oracles: `rollCount` stands for
`math.random(minRolls, maxRolls)`, `rollRand i` for the `math.random()`
draw of roll `i` (a rational in `[0,1)`), and `qRoll i` / `qGuar i` for
the integer draw used by `calculateQuantity` when the quantity spec of
roll `i` / guaranteed drop `i` is a range. -/

/-- Quantity spec of a loot entry: a scalar or an inclusive range. -/
inductive QuantitySpec where
  | scalar (n : ℚ)
  | range (lo hi : ℚ)

structure LootEntry where
  drop : String
  weight : ℚ
  quantity : QuantitySpec
  unique : Bool

structure GuaranteedDrop where
  drop : String
  quantity : QuantitySpec

structure LootTableMeta where
  entries : List LootEntry
  rolls : ℕ × ℕ
  guaranteed : List GuaranteedDrop

/-- One element of the `results` list built by `generateLootFromTable`. -/
structure DropResult where
  drop : String
  quantity : ℤ
  deriving DecidableEq

/-- Embedding of `calculateQuantity`: resolve the base quantity (the
range case consumes the oracle draw), scale by the multiplier, floor. -/
def calculateQuantity (quantitySpec : QuantitySpec) (multiplier : ℚ) (draw : ℚ) : ℤ :=
  match quantitySpec with
  | QuantitySpec.scalar n => ⌊n * multiplier⌋
  | QuantitySpec.range _ _ => ⌊draw * multiplier⌋

/-- Embedding of the `reduce` computing `totalWeight`. -/
def totalWeightOf (entries : List LootEntry) : ℚ :=
  entries.foldl (fun sum entry => sum + entry.weight) 0

/-- The roulette walk of the roll loop: accumulate weights and select
the first entry whose cumulative weight reaches `randomValue`. -/
def selectEntry : List LootEntry → ℚ → ℚ → Option LootEntry
  | [], _, _ => none
  | entry :: rest, currentWeight, randomValue =>
    if randomValue ≤ currentWeight + entry.weight then some entry
    else selectEntry rest (currentWeight + entry.weight) randomValue

/-- The in-place `existingResult.quantity += quantity` on the first
element found by `results.find(r => r.drop === entry.drop)`. -/
def updateFirst : List DropResult → String → ℤ → List DropResult
  | [], _, _ => []
  | r :: rest, drop, q =>
    if r.drop = drop then { r with quantity := r.quantity + q } :: rest
    else r :: updateFirst rest drop q

/-- Whether `results.find(r => r.drop === entry.drop)` succeeds. -/
def containsDrop (results : List DropResult) (drop : String) : Bool :=
  results.any (fun r => r.drop == drop)

/-- The merge step of one roll: merge into an existing non-unique entry,
drop the roll for an existing unique entry, push a new entry otherwise. -/
def addRollResult (results : List DropResult) (entry : LootEntry) (quantity : ℤ) :
    List DropResult :=
  if containsDrop results entry.drop then
    if entry.unique then results
    else updateFirst results entry.drop quantity
  else results ++ [⟨entry.drop, quantity⟩]

/-- Guaranteed drops are pushed first, quantities resolved per drop. -/
def guaranteedResults (guaranteed : List GuaranteedDrop) (multiplier : ℚ)
    (qGuar : ℕ → ℚ) : List DropResult :=
  guaranteed.enum.map
    (fun ig => ⟨ig.2.drop, calculateQuantity ig.2.quantity multiplier (qGuar ig.1)⟩)

/-- One iteration of the roll loop: walk the roulette at `randomValue`
and merge the selection (if any) into the results. -/
def processRoll (entries : List LootEntry) (multiplier randomValue draw : ℚ)
    (results : List DropResult) : List DropResult :=
  match selectEntry entries 0 randomValue with
  | none => results
  | some entry => addRollResult results entry (calculateQuantity entry.quantity multiplier draw)

/-- Embedding of `generateLootFromTable`: guaranteed drops first, then
`rollCount` rolls, roll `i` drawing `rollRand i * totalWeight`. -/
def generateLootFromTable (lootTable : LootTableMeta) (multiplier : ℚ)
    (rollCount : ℕ) (rollRand qRoll qGuar : ℕ → ℚ) : List DropResult :=
  (List.range rollCount).foldl
    (fun results i =>
      processRoll lootTable.entries multiplier
        (rollRand i * totalWeightOf lootTable.entries) (qRoll i) results)
    (guaranteedResults lootTable.guaranteed multiplier qGuar)

/-- A one-entry table whose only weight is 0 (so totalWeight is 0),
rolling exactly once, with no guaranteed drops. -/
def zeroWeightTable : LootTableMeta :=
  { entries := [⟨"bone", 0, QuantitySpec.scalar 1, false⟩]
  , rolls := (1, 1)
  , guaranteed := [] }

/-- C1 counterexample: on `zeroWeightTable` the roll loop selects the
weight-0 entry (the walk's check `0 ≤ 0` passes at the first entry), so
the result is not guaranteed-only: it contains the entry "bone". -/
theorem loot_zero_weight_counterexample :
    generateLootFromTable zeroWeightTable 1 1 (fun _ => 0) (fun _ => 0) (fun _ => 0)
      = [⟨"bone", 1⟩]
    ∧ guaranteedResults zeroWeightTable.guaranteed 1 (fun _ => 0) = []
    ∧ ([⟨"bone", 1⟩] : List DropResult) ≠ [] := by
  refine ⟨?_, rfl, by simp⟩
  unfold generateLootFromTable
  norm_num [processRoll, selectEntry, zeroWeightTable, totalWeightOf, guaranteedResults,
    addRollResult, containsDrop, calculateQuantity]
  simp [List.range_succ]

/-- With all weights 0 the total weight reduces to the accumulator. -/
theorem totalWeightOf_eq_zero {entries : List LootEntry}
    (hzero : ∀ entry ∈ entries, entry.weight = 0) :
    totalWeightOf entries = 0 := by
  unfold totalWeightOf
  induction entries with
  | nil => rfl
  | cons e rest ih =>
    have he : e.weight = 0 := hzero e (List.mem_cons_self e rest)
    have hrest : ∀ entry ∈ rest, entry.weight = 0 :=
      fun entry hm => hzero entry (List.mem_cons_of_mem e hm)
    simp only [List.foldl_cons, he, add_zero]
    exact ih hrest

/-- At randomValue 0, the walk over a zero-weight head entry selects it. -/
theorem selectEntry_zero_head (e : LootEntry) (rest : List LootEntry)
    (he : e.weight = 0) :
    selectEntry (e :: rest) 0 0 = some e := by
  unfold selectEntry
  rw [he, add_zero, if_pos (le_refl (0 : ℚ))]

/-- C1 (amended): for a table whose entries all have weight 0 and whose
entry list is nonempty, every roll selects the first entry — the draw
`rollRand i * totalWeight` is 0 and the cumulative weight 0 already
satisfies the walk's check at the first entry.  The result is therefore
the guaranteed drops plus the first entry merged in once per roll, not a
guaranteed-only list. -/
theorem loot_zero_weight_selects_first (lootTable : LootTableMeta)
    (e : LootEntry) (rest : List LootEntry) (multiplier : ℚ) (rollCount : ℕ)
    (rollRand qRoll qGuar : ℕ → ℚ)
    (hent : lootTable.entries = e :: rest)
    (hzero : ∀ entry ∈ lootTable.entries, entry.weight = 0) :
    generateLootFromTable lootTable multiplier rollCount rollRand qRoll qGuar =
      (List.range rollCount).foldl
        (fun results i =>
          addRollResult results e (calculateQuantity e.quantity multiplier (qRoll i)))
        (guaranteedResults lootTable.guaranteed multiplier qGuar) := by
  unfold generateLootFromTable
  have htw : totalWeightOf lootTable.entries = 0 := totalWeightOf_eq_zero hzero
  have he : e.weight = 0 := by
    refine hzero e ?_
    rw [hent]
    exact List.mem_cons_self e rest
  apply List.foldl_ext
  intro results i _
  rw [htw, mul_zero]
  unfold processRoll
  rw [hent, selectEntry_zero_head e rest he]

/-- C1 witness: on the zero-weight table, two rolls at multiplier 1
both select the first (and only) entry "bone". -/
theorem loot_zero_weight_selects_first_witness :
    generateLootFromTable zeroWeightTable 1 2 (fun _ => 0) (fun _ => 0) (fun _ => 0) =
      (List.range 2).foldl
        (fun results _ =>
          addRollResult results ⟨"bone", 0, QuantitySpec.scalar 1, false⟩
            (calculateQuantity (QuantitySpec.scalar 1) 1 0))
        (guaranteedResults zeroWeightTable.guaranteed 1 (fun _ => 0)) :=
  loot_zero_weight_selects_first zeroWeightTable
    ⟨"bone", 0, QuantitySpec.scalar 1, false⟩ [] 1 2
    (fun _ => 0) (fun _ => 0) (fun _ => 0) rfl (by decide)

/-- Length is unchanged by the in-place quantity merge. -/
theorem updateFirst_length (results : List DropResult) (drop : String) (q : ℤ) :
    (updateFirst results drop q).length = results.length := by
  induction results with
  | nil => rfl
  | cons r rest ih =>
    unfold updateFirst
    by_cases hr : r.drop = drop
    · rw [if_pos hr]; rfl
    · rw [if_neg hr]; simpa using ih

/-- Total quantity carried by the drop in question. -/
def sumQuantityFor (results : List DropResult) (drop : String) : ℤ :=
  ((results.filter (fun r => r.drop == drop)).map DropResult.quantity).sum

/-- Merging adds exactly `q` to the total quantity of the merged drop,
provided the drop is present. -/
theorem sumQuantityFor_updateFirst (results : List DropResult) (drop : String) (q : ℤ)
    (hin : containsDrop results drop = true) :
    sumQuantityFor (updateFirst results drop q) drop = sumQuantityFor results drop + q := by
  induction results with
  | nil => exact absurd hin (by simp [containsDrop])
  | cons r rest ih =>
    unfold updateFirst
    by_cases hr : r.drop = drop
    · rw [if_pos hr]
      unfold sumQuantityFor
      simp only [List.filter_cons, hr, beq_self_eq_true, if_pos, List.map_cons, List.sum_cons]
      ring
    · rw [if_neg hr]
      have hin2 : containsDrop rest drop = true := by
        unfold containsDrop at hin ⊢
        simp only [List.any_cons, Bool.or_eq_true, beq_iff_eq] at hin
        rcases hin with h | h
        · exact absurd h hr
        · exact h
      unfold sumQuantityFor
      have hrb : (r.drop == drop) = false := beq_eq_false_iff_ne.mpr hr
      simp only [List.filter_cons, hrb, Bool.false_eq_true, if_neg, ite_false]
      exact ih hin2

/-- Merging a drop leaves the totals of every other drop unchanged. -/
theorem sumQuantityFor_updateFirst_other (results : List DropResult)
    (drop d2 : String) (q : ℤ) (hne : d2 ≠ drop) :
    sumQuantityFor (updateFirst results drop q) d2 = sumQuantityFor results d2 := by
  induction results with
  | nil => rfl
  | cons r rest ih =>
    unfold updateFirst
    by_cases hr : r.drop = drop
    · rw [if_pos hr]
      unfold sumQuantityFor
      have hrb : (r.drop == d2) = false := by
        refine beq_eq_false_iff_ne.mpr ?_
        rw [hr]
        exact fun h => hne h.symm
      simp only [List.filter_cons, hrb, Bool.false_eq_true, if_neg, ite_false]
    · rw [if_neg hr]
      unfold sumQuantityFor
      by_cases hr2 : r.drop = d2
      · have hrb : (r.drop == d2) = true := beq_iff_eq.mpr hr2
        simp only [List.filter_cons, hrb, if_pos, List.map_cons, List.sum_cons]
        have := ih
        unfold sumQuantityFor at this
        rw [this]
      · have hrb : (r.drop == d2) = false := beq_eq_false_iff_ne.mpr hr2
        simp only [List.filter_cons, hrb, Bool.false_eq_true, if_neg, ite_false]
        exact ih

/-- C4: when a roll selects an item already present in the results, a
unique entry contributes nothing, and a non-unique entry merges into the
first existing element: no new list entry, the selected drop's total
grows by the resolved quantity, and every other drop is untouched. -/
theorem loot_merge_rule (results : List DropResult) (entry : LootEntry) (q : ℤ)
    (d2 : String)
    (hin : containsDrop results entry.drop = true)
    (hd2 : d2 ≠ entry.drop) :
    addRollResult results entry q
        = (if entry.unique then results else updateFirst results entry.drop q)
    ∧ (updateFirst results entry.drop q).length = results.length
    ∧ sumQuantityFor (updateFirst results entry.drop q) entry.drop
        = sumQuantityFor results entry.drop + q
    ∧ sumQuantityFor (updateFirst results entry.drop q) d2 = sumQuantityFor results d2 := by
  refine ⟨?_, updateFirst_length results entry.drop q,
    sumQuantityFor_updateFirst results entry.drop q hin,
    sumQuantityFor_updateFirst_other results entry.drop d2 q hd2⟩
  unfold addRollResult
  rw [if_pos hin]

/-- C4 witness: merging a non-unique "bone" roll of quantity 3 into a
result list already holding bone 2 and gold 5. -/
theorem loot_merge_rule_witness :
    addRollResult [⟨"bone", 2⟩, ⟨"gold", 5⟩] ⟨"bone", 1, QuantitySpec.scalar 1, false⟩ 3
        = (if false then [⟨"bone", 2⟩, ⟨"gold", 5⟩]
           else updateFirst [⟨"bone", 2⟩, ⟨"gold", 5⟩] "bone" 3)
    ∧ (updateFirst [⟨"bone", 2⟩, ⟨"gold", 5⟩] "bone" 3).length
        = ([⟨"bone", 2⟩, ⟨"gold", 5⟩] : List DropResult).length
    ∧ sumQuantityFor (updateFirst [⟨"bone", 2⟩, ⟨"gold", 5⟩] "bone" 3) "bone"
        = sumQuantityFor [⟨"bone", 2⟩, ⟨"gold", 5⟩] "bone" + 3
    ∧ sumQuantityFor (updateFirst [⟨"bone", 2⟩, ⟨"gold", 5⟩] "bone" 3) "gold"
        = sumQuantityFor [⟨"bone", 2⟩, ⟨"gold", 5⟩] "gold" :=
  loot_merge_rule [⟨"bone", 2⟩, ⟨"gold", 5⟩] ⟨"bone", 1, QuantitySpec.scalar 1, false⟩ 3
    "gold" (by decide) (by decide)

/-! ## NPCService (src/server/services/NPCService.ts)

The `spawnedNPCs` map is a string-keyed store of mutable NPC records.
`damageNPC` is embedded as a function returning the updated store and
the boolean result.  The 5-second deferred cleanup scheduled by
`handleNPCDeath` is the separate `despawnNPC` step; the immediate effect
of the death path is the `isAlive := false` flag flip. -/

structure SpawnedNPC where
  npcKey : String
  health : ℚ
  maxHealth : ℚ
  isAlive : Bool

abbrev NPCStore := String → Option SpawnedNPC

/-- Functional update of the NPC store, modelling `Map.set`. -/
def storeSet (store : NPCStore) (id : String) (npc : SpawnedNPC) : NPCStore :=
  fun id2 => if id2 = id then some npc else store id2

/-- Immediate effect of `handleNPCDeath` on the record: mark it dead. -/
def handleNPCDeath (npc : SpawnedNPC) : SpawnedNPC :=
  { npc with isAlive := false }

/-- Embedding of `despawnNPC`: remove the record, reporting success. -/
def despawnNPC (store : NPCStore) (npcId : String) : NPCStore × Bool :=
  match store npcId with
  | none => (store, false)
  | some _ => (fun id2 => if id2 = npcId then none else store id2, true)

/-- Embedding of `damageNPC` (NPCService.ts lines 104-117): missing or
dead NPCs are rejected; otherwise health becomes `max(0, health − damage)`
and the death path runs when the new health is `≤ 0`. -/
def damageNPC (store : NPCStore) (npcId : String) (damage : ℚ) : NPCStore × Bool :=
  match store npcId with
  | none => (store, false)
  | some npc =>
    if npc.isAlive = false then (store, false)
    else
      let npc1 : SpawnedNPC := { npc with health := max 0 (npc.health - damage) }
      let npc2 := if npc1.health ≤ 0 then handleNPCDeath npc1 else npc1
      (storeSet store npcId npc2, true)

/-- A sequence of `damageNPC` calls, keeping only the store. -/
def applyDamageCalls (store : NPCStore) (calls : List (String × ℚ)) : NPCStore :=
  calls.foldl (fun s c => (damageNPC s c.1 c.2).1) store

/-- The spec's NPC invariant: health within `[0, maxHealth]` and the
alive flag cleared once health is 0. -/
def npcInvariant (store : NPCStore) : Prop :=
  ∀ id npc, store id = some npc →
    0 ≤ npc.health ∧ npc.health ≤ npc.maxHealth ∧ (npc.health = 0 → npc.isAlive = false)

/-- A store holding a single live zombie at full health 100/100. -/
def zombieStore : NPCStore :=
  fun id => if id = "npc_1" then some ⟨"ZOMBIE", 100, 100, true⟩ else none

/-- C5 counterexample: damaging the full-health zombie by -50 stores
health 150, above `maxHealth = 100` — `math.max(0, health - damage)` has
no upper clamp, so a negative damage amount heals past the cap. -/
theorem damageNPC_negative_counterexample :
    (damageNPC zombieStore "npc_1" (-50)).1 "npc_1" = some ⟨"ZOMBIE", 150, 100, true⟩
    ∧ ¬ ((150 : ℚ) ≤ 100) := by
  constructor
  · unfold damageNPC zombieStore
    norm_num [handleNPCDeath, storeSet]
  · norm_num

/-- A nonnegative-damage `damageNPC` call preserves the NPC invariant. -/
theorem damageNPC_invariant_step (store : NPCStore) (npcId : String) (d : ℚ)
    (hinv : npcInvariant store) (hd : 0 ≤ d) :
    npcInvariant (damageNPC store npcId d).1 := by
  unfold damageNPC
  cases hid : store npcId with
  | none => exact hinv
  | some npc =>
    dsimp only
    by_cases halive : npc.isAlive = false
    · rw [if_pos halive]; exact hinv
    · rw [if_neg halive]
      intro id2 npc2 h2
      unfold storeSet at h2
      dsimp only at h2
      by_cases hi : id2 = npcId
      · rw [if_pos hi] at h2
        obtain ⟨h0, hle, -⟩ := hinv npcId npc hid
        have hmax0 : (0 : ℚ) ≤ npc.maxHealth := le_trans h0 hle
        have hnew : max 0 (npc.health - d) ≤ npc.maxHealth :=
          max_le hmax0 (le_trans (sub_le_self npc.health hd) hle)
        by_cases hdead : max 0 (npc.health - d) ≤ (0 : ℚ)
        · rw [if_pos hdead] at h2
          injection h2 with h2
          subst h2
          exact ⟨le_max_left 0 _, hnew, fun _ => rfl⟩
        · rw [if_neg hdead] at h2
          injection h2 with h2
          subst h2
          refine ⟨le_max_left 0 _, hnew, ?_⟩
          intro hzero
          dsimp only at hzero
          exact absurd (le_of_eq hzero) hdead
      · rw [if_neg hi] at h2
        exact hinv id2 npc2 h2

/-- C5 (amended): for every sequence of damage calls whose amounts are
all nonnegative, every stored NPC keeps `0 ≤ health ≤ maxHealth` and the
alive flag is cleared once health reaches 0.  A negative damage amount
can push health above `maxHealth` (see the counterexample), which is the
only part of the claim that fails. -/
theorem npc_damage_sequence_invariant (store : NPCStore) (calls : List (String × ℚ))
    (hinv : npcInvariant store) (hd : ∀ c ∈ calls, 0 ≤ c.2) :
    npcInvariant (applyDamageCalls store calls) := by
  induction calls generalizing store with
  | nil => exact hinv
  | cons c rest ih =>
    unfold applyDamageCalls
    rw [List.foldl_cons]
    have hstep := damageNPC_invariant_step store c.1 c.2 hinv (hd c (List.mem_cons_self c rest))
    have hrest : ∀ c2 ∈ rest, 0 ≤ c2.2 := fun c2 hm => hd c2 (List.mem_cons_of_mem c hm)
    exact ih _ hstep hrest

/-- The zombie store satisfies the NPC invariant. -/
theorem zombieStore_invariant : npcInvariant zombieStore := by
  intro id npc h
  unfold zombieStore at h
  by_cases hi : id = "npc_1"
  · rw [if_pos hi] at h
    injection h with h
    subst h
    norm_num
  · rw [if_neg hi] at h
    exact absurd h (by simp)

/-- C5 witness: hitting the zombie for 30 and then 170 keeps the store
within the invariant. -/
theorem npc_damage_sequence_invariant_witness :
    npcInvariant zombieStore
    ∧ npcInvariant (applyDamageCalls zombieStore [("npc_1", 30), ("npc_1", 170)]) :=
  ⟨zombieStore_invariant,
   npc_damage_sequence_invariant zombieStore [("npc_1", 30), ("npc_1", 170)]
     zombieStore_invariant (by decide)⟩

/-- C10: `damageNPC` on a missing id, or on an NPC already flagged dead,
returns `false` and leaves the whole store untouched, so the death path
and its loot generation cannot run again for a dead NPC. -/
theorem damageNPC_rejects_missing_or_dead (store : NPCStore) (npcId : String) (d : ℚ)
    (hguard : store npcId = none ∨ ∀ npc, store npcId = some npc → npc.isAlive = false) :
    damageNPC store npcId d = (store, false) := by
  unfold damageNPC
  cases hid : store npcId with
  | none => rfl
  | some npc =>
    dsimp only
    rcases hguard with h | h
    · rw [hid] at h; exact absurd h (by simp)
    · rw [if_pos (h npc hid)]

/-- A store holding a single dead zombie at health 0. -/
def deadZombieStore : NPCStore :=
  fun id => if id = "npc_1" then some ⟨"ZOMBIE", 0, 100, false⟩ else none

/-- C10 witness: damaging the dead zombie reports false and changes
nothing. -/
theorem damageNPC_rejects_dead_witness :
    damageNPC deadZombieStore "npc_1" 25 = (deadZombieStore, false) :=
  damageNPC_rejects_missing_or_dead deadZombieStore "npc_1" 25
    (Or.inr (by
      intro npc h
      unfold deadZombieStore at h
      rw [if_pos rfl] at h
      injection h with h
      rw [← h]))

/-! ## Timed entity stores

LootService (src/server/services/LootService.ts) keeps `activeLootDrops`
with TTL `LOOT_EXPIRE_TIME = 60` seconds, swept every 10 seconds;
MessageService (src/server/services/MessageService.ts) keeps
`messageQueue` with TTL `MESSAGE_EXPIRE_TIME = 300` seconds, swept every
30 seconds.  Ids are generated by a monotone counter (`loot_<n>`) or
`generateUniqueId`; the embedding passes the id in and theorems assume
freshness where it matters.  Wall-clock readings of `tick()` are the
`now` parameters. -/

def LOOT_EXPIRE_TIME : ℚ := 60

structure LootDrop where
  id : String
  itemId : String
  quantity : ℚ
  position : ℚ × ℚ × ℚ
  timestamp : ℚ
  expiresAt : ℚ

abbrev LootStore := String → Option LootDrop

/-- Embedding of `createLootDrop`: stamp the record with `now` and
`expiresAt = now + LOOT_EXPIRE_TIME`, and store it under its id. -/
def createLootDrop (store : LootStore) (id itemId : String) (quantity : ℚ)
    (position : ℚ × ℚ × ℚ) (now : ℚ) : LootStore :=
  fun id2 =>
    if id2 = id then
      some { id := id, itemId := itemId, quantity := quantity, position := position,
             timestamp := now, expiresAt := now + LOOT_EXPIRE_TIME }
    else store id2

/-- Embedding of `collectLoot`: remove and return the drop if present. -/
def collectLoot (store : LootStore) (lootId : String) : LootStore × Option LootDrop :=
  match store lootId with
  | none => (store, none)
  | some loot => (fun id2 => if id2 = lootId then none else store id2, some loot)

/-- Embedding of `cleanupExpiredLoot`: one sweep at time `now` removes
every drop with `now ≥ expiresAt`. -/
def cleanupExpiredLoot (now : ℚ) (store : LootStore) : LootStore :=
  fun id =>
    match store id with
    | none => none
    | some loot => if now ≥ loot.expiresAt then none else some loot

/-- The store operations that may run between creation and expiry. -/
inductive LootOp where
  | create (id itemId : String) (quantity : ℚ) (position : ℚ × ℚ × ℚ) (now : ℚ)
  | collect (id : String)
  | sweep (now : ℚ)

def applyLootOp (store : LootStore) : LootOp → LootStore
  | LootOp.create id itemId q pos now => createLootDrop store id itemId q pos now
  | LootOp.collect id => (collectLoot store id).1
  | LootOp.sweep now => cleanupExpiredLoot now store

def applyLootOps (store : LootStore) (ops : List LootOp) : LootStore :=
  ops.foldl applyLootOp store

/-- An operation leaves the entry under `id` (expiring at `expiry`)
alone: no create reusing the id, no collect of the id, and sweeps
strictly before the expiry time. -/
def lootOpPreserves (id : String) (expiry : ℚ) : LootOp → Prop
  | LootOp.create id2 _ _ _ _ => id2 ≠ id
  | LootOp.collect id2 => id2 ≠ id
  | LootOp.sweep t => t < expiry

/-- Entries survive every operation that preserves them. -/
theorem applyLootOps_preserves (ops : List LootOp) (store : LootStore)
    (id : String) (d : LootDrop)
    (hd : store id = some d)
    (hops : ∀ op ∈ ops, lootOpPreserves id d.expiresAt op) :
    applyLootOps store ops id = some d := by
  induction ops generalizing store with
  | nil => exact hd
  | cons op rest ih =>
    unfold applyLootOps
    rw [List.foldl_cons]
    have hop := hops op (List.mem_cons_self op rest)
    have hrest : ∀ op2 ∈ rest, lootOpPreserves id d.expiresAt op2 :=
      fun op2 hm => hops op2 (List.mem_cons_of_mem op hm)
    refine ih (applyLootOp store op) ?_ hrest
    cases op with
    | create id2 itemId q pos now =>
      simp only [lootOpPreserves] at hop
      simp only [applyLootOp]
      unfold createLootDrop
      rw [if_neg (fun h => hop h.symm)]
      exact hd
    | collect id2 =>
      simp only [lootOpPreserves] at hop
      simp only [applyLootOp]
      unfold collectLoot
      cases h2 : store id2 with
      | none => exact hd
      | some loot =>
        dsimp only
        rw [if_neg (fun h => hop h.symm)]
        exact hd
    | sweep t =>
      simp only [lootOpPreserves] at hop
      simp only [applyLootOp]
      unfold cleanupExpiredLoot
      rw [hd]
      dsimp only
      rw [if_neg (not_le_of_lt hop)]

/-- A sweep at or after the expiry time removes the entry. -/
theorem cleanupExpiredLoot_removes (store : LootStore) (id : String) (d : LootDrop)
    (t : ℚ) (hd : store id = some d) (hlate : d.expiresAt ≤ t) :
    cleanupExpiredLoot t store id = none := by
  unfold cleanupExpiredLoot
  rw [hd]
  dsimp only
  rw [if_pos hlate]

def MESSAGE_EXPIRE_TIME : ℚ := 300

/-- The record built by `createMessage` (id from `generateUniqueId`,
`textColor` from the severity's meta, defaulting to white). -/
structure MessageShape where
  id : String
  timestamp : ℚ
  title : String
  content : String
  severity : String
  textColor : ℕ × ℕ × ℕ
  deriving DecidableEq

/-- A queued message: the shape plus routing and expiry
(`recipientId = none` means broadcast). -/
structure QueuedMessage extends MessageShape where
  recipientId : Option ℤ
  expiresAt : ℚ

abbrev MessageQueue := String → Option QueuedMessage

/-- The queue update shared by `sendMessageToPlayer` and
`broadcastMessage`: spread the shape, stamp
`expiresAt = tick() + MESSAGE_EXPIRE_TIME`, store under the message id. -/
def enqueueMessage (queue : MessageQueue) (message : MessageShape)
    (recipientId : Option ℤ) (now : ℚ) : MessageQueue :=
  fun id2 =>
    if id2 = message.id then
      some { toMessageShape := message, recipientId := recipientId,
             expiresAt := now + MESSAGE_EXPIRE_TIME }
    else queue id2

/-- Embedding of `cancelMessage` (`Map.delete` reports presence). -/
def cancelMessage (queue : MessageQueue) (messageId : String) : MessageQueue × Bool :=
  match queue messageId with
  | none => (queue, false)
  | some _ => (fun id2 => if id2 = messageId then none else queue id2, true)

/-- Embedding of `cleanupExpiredMessages` (MessageService.ts lines
296-313): one sweep removes every message with `now ≥ expiresAt`. -/
def cleanupExpiredMessages (now : ℚ) (queue : MessageQueue) : MessageQueue :=
  fun id =>
    match queue id with
    | none => none
    | some message => if now ≥ message.expiresAt then none else some message

inductive MsgOp where
  | send (message : MessageShape) (recipientId : Option ℤ) (now : ℚ)
  | cancel (id : String)
  | sweep (now : ℚ)

def applyMsgOp (queue : MessageQueue) : MsgOp → MessageQueue
  | MsgOp.send message recipientId now => enqueueMessage queue message recipientId now
  | MsgOp.cancel id => (cancelMessage queue id).1
  | MsgOp.sweep now => cleanupExpiredMessages now queue

def applyMsgOps (queue : MessageQueue) (ops : List MsgOp) : MessageQueue :=
  ops.foldl applyMsgOp queue

def msgOpPreserves (id : String) (expiry : ℚ) : MsgOp → Prop
  | MsgOp.send message _ _ => message.id ≠ id
  | MsgOp.cancel id2 => id2 ≠ id
  | MsgOp.sweep t => t < expiry

/-- Queued messages survive every operation that preserves them. -/
theorem applyMsgOps_preserves (ops : List MsgOp) (queue : MessageQueue)
    (id : String) (m : QueuedMessage)
    (hm : queue id = some m)
    (hops : ∀ op ∈ ops, msgOpPreserves id m.expiresAt op) :
    applyMsgOps queue ops id = some m := by
  induction ops generalizing queue with
  | nil => exact hm
  | cons op rest ih =>
    unfold applyMsgOps
    rw [List.foldl_cons]
    have hop := hops op (List.mem_cons_self op rest)
    have hrest : ∀ op2 ∈ rest, msgOpPreserves id m.expiresAt op2 :=
      fun op2 hmem => hops op2 (List.mem_cons_of_mem op hmem)
    refine ih (applyMsgOp queue op) ?_ hrest
    cases op with
    | send message recipientId now =>
      simp only [msgOpPreserves] at hop
      simp only [applyMsgOp]
      unfold enqueueMessage
      rw [if_neg (fun h => hop h.symm)]
      exact hm
    | cancel id2 =>
      simp only [msgOpPreserves] at hop
      simp only [applyMsgOp]
      unfold cancelMessage
      cases h2 : queue id2 with
      | none => exact hm
      | some m2 =>
        dsimp only
        rw [if_neg (fun h => hop h.symm)]
        exact hm
    | sweep t =>
      simp only [msgOpPreserves] at hop
      simp only [applyMsgOp]
      unfold cleanupExpiredMessages
      rw [hm]
      dsimp only
      rw [if_neg (not_le_of_lt hop)]

/-- A message sweep at or after the expiry removes the entry. -/
theorem cleanupExpiredMessages_removes (queue : MessageQueue) (id : String)
    (m : QueuedMessage) (t : ℚ) (hm : queue id = some m) (hlate : m.expiresAt ≤ t) :
    cleanupExpiredMessages t queue id = none := by
  unfold cleanupExpiredMessages
  rw [hm]
  dsimp only
  rw [if_pos hlate]

/-- C6: a loot drop created at time `T` expires at `T + 60`, and a
queued message sent at time `T2` expires at `T2 + 300`; each survives
every interleaving of store operations that does not explicitly remove
it and whose sweeps all run strictly before its expiry time, and the
first sweep at or after the expiry time removes it. -/
theorem timed_entity_store_ttl
    (store : LootStore) (id itemId : String) (q : ℚ) (pos : ℚ × ℚ × ℚ) (T : ℚ)
    (ops : List LootOp) (t : ℚ)
    (queue : MessageQueue) (message : MessageShape) (recipientId : Option ℤ) (T2 : ℚ)
    (ops2 : List MsgOp) (t2 : ℚ)
    (hops : ∀ op ∈ ops, lootOpPreserves id (T + LOOT_EXPIRE_TIME) op)
    (hlate : T + LOOT_EXPIRE_TIME ≤ t)
    (hops2 : ∀ op ∈ ops2, msgOpPreserves message.id (T2 + MESSAGE_EXPIRE_TIME) op)
    (hlate2 : T2 + MESSAGE_EXPIRE_TIME ≤ t2) :
    applyLootOps (createLootDrop store id itemId q pos T) ops id
        = some ⟨id, itemId, q, pos, T, T + LOOT_EXPIRE_TIME⟩
    ∧ cleanupExpiredLoot t (applyLootOps (createLootDrop store id itemId q pos T) ops) id
        = none
    ∧ applyMsgOps (enqueueMessage queue message recipientId T2) ops2 message.id
        = some ⟨message, recipientId, T2 + MESSAGE_EXPIRE_TIME⟩
    ∧ cleanupExpiredMessages t2
        (applyMsgOps (enqueueMessage queue message recipientId T2) ops2) message.id
        = none := by
  have h1 : createLootDrop store id itemId q pos T id
      = some ⟨id, itemId, q, pos, T, T + LOOT_EXPIRE_TIME⟩ := by
    unfold createLootDrop
    rw [if_pos rfl]
  have hA := applyLootOps_preserves ops _ id _ h1 hops
  have h2 : enqueueMessage queue message recipientId T2 message.id
      = some ⟨message, recipientId, T2 + MESSAGE_EXPIRE_TIME⟩ := by
    unfold enqueueMessage
    rw [if_pos rfl]
  have hB := applyMsgOps_preserves ops2 _ message.id _ h2 hops2
  exact ⟨hA, cleanupExpiredLoot_removes _ id _ t hA hlate, hB,
    cleanupExpiredMessages_removes _ message.id _ t2 hB hlate2⟩

/-- A concrete message shape used by the C6 witness. -/
def witnessMessage : MessageShape :=
  ⟨"msg_1", 0, "", "Hello", "info", (255, 255, 255)⟩

/-- C6 witness: a loot drop created at time 0 survives the sweep at 10
and is gone after a sweep at 100; a message sent at time 0 survives the
sweep at 30 and is gone after a sweep at 400. -/
theorem timed_entity_store_ttl_witness :
    applyLootOps (createLootDrop (fun _ => none) "loot_1" "bone" 1 (0, 0, 0) 0)
        [LootOp.sweep 10] "loot_1"
        = some ⟨"loot_1", "bone", 1, (0, 0, 0), 0, 0 + LOOT_EXPIRE_TIME⟩
    ∧ cleanupExpiredLoot 100
        (applyLootOps (createLootDrop (fun _ => none) "loot_1" "bone" 1 (0, 0, 0) 0)
          [LootOp.sweep 10]) "loot_1"
        = none
    ∧ applyMsgOps (enqueueMessage (fun _ => none) witnessMessage (some 7) 0)
        [MsgOp.sweep 30] witnessMessage.id
        = some ⟨witnessMessage, some 7, 0 + MESSAGE_EXPIRE_TIME⟩
    ∧ cleanupExpiredMessages 400
        (applyMsgOps (enqueueMessage (fun _ => none) witnessMessage (some 7) 0)
          [MsgOp.sweep 30]) witnessMessage.id
        = none :=
  timed_entity_store_ttl (fun _ => none) "loot_1" "bone" 1 (0, 0, 0) 0
    [LootOp.sweep 10] 100 (fun _ => none) witnessMessage (some 7) 0
    [MsgOp.sweep 30] 400
    (by
      intro op hmem
      rw [List.mem_singleton] at hmem
      subst hmem
      simp only [lootOpPreserves, LOOT_EXPIRE_TIME]
      norm_num)
    (by norm_num [LOOT_EXPIRE_TIME])
    (by
      intro op hmem
      rw [List.mem_singleton] at hmem
      subst hmem
      simp only [msgOpPreserves, MESSAGE_EXPIRE_TIME]
      norm_num)
    (by norm_num [MESSAGE_EXPIRE_TIME])

/-! ## Per-recipient message history (MessageService.ts lines 230-247)

`addToPlayerHistory` appends the new message to the recipient's history
and then shifts out `size - 50` oldest entries when the size exceeds
`MAX_HISTORY_PER_PLAYER = 50`. -/

def MAX_HISTORY_PER_PLAYER : ℕ := 50

/-- Embedding of `addToPlayerHistory`: push, then trim from the front
down to the capacity. -/
def addToPlayerHistory (history : List MessageShape) (message : MessageShape) :
    List MessageShape :=
  if MAX_HISTORY_PER_PLAYER < (history ++ [message]).length then
    (history ++ [message]).drop ((history ++ [message]).length - MAX_HISTORY_PER_PLAYER)
  else history ++ [message]

/-- Closed form of one history push: drop from the front whatever
exceeds the capacity (Nat subtraction makes the in-capacity case a
`drop 0`). -/
theorem addToPlayerHistory_eq (history : List MessageShape) (message : MessageShape) :
    addToPlayerHistory history message
      = (history ++ [message]).drop ((history.length + 1) - MAX_HISTORY_PER_PLAYER) := by
  unfold addToPlayerHistory
  by_cases h : MAX_HISTORY_PER_PLAYER < (history ++ [message]).length
  · rw [if_pos h]
    simp [List.length_append]
  · rw [if_neg h]
    simp only [List.length_append, List.length_singleton] at h
    have h0 : (history.length + 1) - MAX_HISTORY_PER_PLAYER = 0 := by omega
    rw [h0, List.drop_zero]

/-- Folding sends over a within-capacity history keeps the suffix of the
last `MAX_HISTORY_PER_PLAYER` messages. -/
theorem foldl_addToPlayerHistory (ms : List MessageShape) (history : List MessageShape)
    (hlen : history.length ≤ MAX_HISTORY_PER_PLAYER) :
    List.foldl addToPlayerHistory history ms
      = (history ++ ms).drop ((history.length + ms.length) - MAX_HISTORY_PER_PLAYER) := by
  induction ms generalizing history with
  | nil =>
    simp only [List.foldl_nil, List.append_nil, List.length_nil, Nat.add_zero]
    rw [Nat.sub_eq_zero_of_le hlen, List.drop_zero]
  | cons m rest ih =>
    rw [List.foldl_cons, addToPlayerHistory_eq]
    have hj : (history.length + 1) - MAX_HISTORY_PER_PLAYER ≤ (history ++ [m]).length := by
      simp only [List.length_append, List.length_singleton]
      omega
    have hlen1 :
        ((history ++ [m]).drop ((history.length + 1) - MAX_HISTORY_PER_PLAYER)).length
          ≤ MAX_HISTORY_PER_PLAYER := by
      rw [List.length_drop, List.length_append, List.length_singleton]
      omega
    rw [ih _ hlen1, List.length_drop, List.length_append, List.length_singleton,
      ← List.drop_append_of_le_length hj, List.drop_drop, List.append_assoc,
      List.singleton_append, List.length_cons]
    congr 1
    omega

/-- C7: for every sequence of sends to a recipient, the history after
each send is exactly the suffix of the most recent 50 messages — the
oldest are evicted first — and in particular never exceeds 50 entries. -/
theorem message_history_bounded_fifo (ms : List MessageShape) :
    List.foldl addToPlayerHistory [] ms
        = ms.drop (ms.length - MAX_HISTORY_PER_PLAYER)
    ∧ (List.foldl addToPlayerHistory [] ms).length ≤ MAX_HISTORY_PER_PLAYER := by
  have h := foldl_addToPlayerHistory ms [] (by simp)
  simp only [List.nil_append, List.length_nil, Nat.zero_add] at h
  refine ⟨h, ?_⟩
  rw [h, List.length_drop]
  omega


/-! ## EventService (src/server/services/EventService.ts)

Handlers are payload consumers that either return a result or fault
(`none`), modelling a callback that throws; the `try/catch` inside
`fire` swallows the fault and the loop continues.  `fire` is a total
function: publish always returns. -/

structure GameEvent (α : Type) where
  name : String
  timestamp : ℚ
  data : α

structure EventService (α σ : Type) where
  eventListeners : String → Option (List (α → Option σ))
  eventHistory : List (GameEvent α)

def MAX_HISTORY : ℕ := 1000

/-- The dispatch loop of `fire`: invoke every listener in subscription
order; a faulting listener is caught (logged) and skipped, and the loop
continues with the remaining listeners.  Collects the successful
results in order. -/
def fireLoop {α σ : Type} : List (α → Option σ) → α → List σ
  | [], _ => []
  | l :: ls, data =>
    match l data with
    | some s => s :: fireLoop ls data
    | none => fireLoop ls data

/-- Embedding of `fire` (EventService.ts lines 61-85): append the event
to the bounded history (shift once past 1000 entries), then dispatch to
the topic's listeners, if any. -/
def fire {α σ : Type} (svc : EventService α σ) (eventName : String) (t : ℚ) (data : α) :
    EventService α σ × List σ :=
  let hist := svc.eventHistory ++ [⟨eventName, t, data⟩]
  let hist2 := if MAX_HISTORY < hist.length then hist.drop 1 else hist
  match svc.eventListeners eventName with
  | none => ({ svc with eventHistory := hist2 }, [])
  | some listeners => ({ svc with eventHistory := hist2 }, fireLoop listeners data)

/-- A faulting listener in the middle of the subscription list does not
prevent the listeners before or after it from running. -/
theorem fireLoop_skips_fault {α σ : Type} (ls1 ls2 : List (α → Option σ))
    (f : α → Option σ) (data : α) (hf : f data = none) :
    fireLoop (ls1 ++ f :: ls2) data = fireLoop ls1 data ++ fireLoop ls2 data := by
  induction ls1 with
  | nil =>
    simp only [List.nil_append, fireLoop]
    rw [hf]
  | cons l ls ih =>
    simp only [List.cons_append, fireLoop]
    cases hl : l data with
    | some s =>
      dsimp only
      rw [List.cons_append]
      exact congrArg (fun x => s :: x) ih
    | none =>
      dsimp only
      exact ih

/-- C8: publishing on a topic with no subscribers dispatches to nobody
and leaves the subscriber map untouched (and `fire` returns normally,
being a total function); and when a subscribed handler faults during
dispatch, every other handler for the topic is still invoked with the
event, in order. -/
theorem eventbus_publish_fault_isolation {α σ : Type}
    (svc svc2 : EventService α σ) (topic topic2 : String) (t t2 : ℚ) (data data2 : α)
    (ls1 ls2 : List (α → Option σ)) (f : α → Option σ)
    (hempty : svc.eventListeners topic = none ∨ svc.eventListeners topic = some [])
    (hsubs : svc2.eventListeners topic2 = some (ls1 ++ f :: ls2))
    (hf : f data2 = none) :
    (fire svc topic t data).2 = []
    ∧ (fire svc topic t data).1.eventListeners = svc.eventListeners
    ∧ (fire svc2 topic2 t2 data2).2 = fireLoop ls1 data2 ++ fireLoop ls2 data2 := by
  refine ⟨?_, ?_, ?_⟩
  · unfold fire
    rcases hempty with h | h
    · rw [h]
    · rw [h]
      rfl
  · unfold fire
    rcases hempty with h | h
    · rw [h]
    · rw [h]
  · unfold fire
    rw [hsubs]
    dsimp only
    exact fireLoop_skips_fault ls1 ls2 f data2 hf

/-- Concrete handlers for the C8 witness. -/
def handlerA : ℕ → Option ℕ := fun n => some (n + 1)

def handlerB : ℕ → Option ℕ := fun n => some (n + 2)

def faultyHandler : ℕ → Option ℕ := fun _ => none

/-- A bus with no subscribers at all. -/
def emptyBus : EventService ℕ ℕ := ⟨fun _ => none, []⟩

/-- A bus where "npcDefeated" has a faulting handler between two good
ones. -/
def faultyBus : EventService ℕ ℕ :=
  ⟨fun topic => if topic = "npcDefeated" then some [handlerA, faultyHandler, handlerB]
    else none, []⟩

/-- C8 witness: publishing "resourceLow" on the empty bus dispatches to
nobody and keeps the listener map; publishing "npcDefeated" on the
faulty bus still runs both good handlers. -/
theorem eventbus_publish_fault_isolation_witness :
    (fire emptyBus "resourceLow" 0 5).2 = []
    ∧ (fire emptyBus "resourceLow" 0 5).1.eventListeners = emptyBus.eventListeners
    ∧ (fire faultyBus "npcDefeated" 1 5).2 = fireLoop [handlerA] 5 ++ fireLoop [handlerB] 5 :=
  eventbus_publish_fault_isolation emptyBus faultyBus "resourceLow" "npcDefeated" 0 1 5 5
    [handlerA] [handlerB] faultyHandler (Or.inl rfl) rfl rfl

/-! ## PlayerDataService (src/server/services/PlayerDataService.ts)

The external DataStore collaborator is the `dataStore` map; a failing
`GetAsync`/`SetAsync` promise is modelled by the `fetchOk`/`saveOk`
flags (the catch paths).  `tick()` readings are the `now` parameters. -/

structure PlayerProfile where
  playerId : ℤ
  playerName : String
  level : ℤ
  experience : ℤ
  currency : String → Option ℚ
  inventory : List (String × ℤ)
  settings : List (String × String)
  lastLogin : ℚ
  totalPlayTime : ℚ

structure PlayerDataService where
  dataStore : String → Option PlayerProfile
  playerProfiles : ℤ → Option PlayerProfile
  sessionStartTimes : ℤ → Option ℚ

/-- The persistence key `Player_<playerId>`. -/
def profileKey (playerId : ℤ) : String := "Player_" ++ toString playerId

/-- Embedding of `createDefaultProfile`: level 1, zero experience,
seeded currency (gold 100, gems 10), empty inventory and settings. -/
def createDefaultProfile (playerId : ℤ) (playerName : String) (now : ℚ) : PlayerProfile :=
  { playerId := playerId
  , playerName := playerName
  , level := 1
  , experience := 0
  , currency := fun c => if c = "gold" then some 100 else if c = "gems" then some 10 else none
  , inventory := []
  , settings := []
  , lastLogin := now
  , totalPlayTime := 0 }

/-- Embedding of `loadPlayerData`: on fetch failure return `undefined`
and cache nothing; an existing blob is returned with `lastLogin`
refreshed, an absent blob becomes the default profile; either way the
result is cached and the session-start clock recorded. -/
def loadPlayerData (svc : PlayerDataService) (playerId : ℤ) (playerName : String)
    (now : ℚ) (fetchOk : Bool) : PlayerDataService × Option PlayerProfile :=
  if fetchOk then
    match svc.dataStore (profileKey playerId) with
    | some savedData =>
      ({ svc with
          playerProfiles := fun p =>
            if p = playerId then some { savedData with lastLogin := now }
            else svc.playerProfiles p
        , sessionStartTimes := fun p =>
            if p = playerId then some now else svc.sessionStartTimes p },
        some { savedData with lastLogin := now })
    | none =>
      ({ svc with
          playerProfiles := fun p =>
            if p = playerId then some (createDefaultProfile playerId playerName now)
            else svc.playerProfiles p
        , sessionStartTimes := fun p =>
            if p = playerId then some now else svc.sessionStartTimes p },
        some (createDefaultProfile playerId playerName now))
  else (svc, none)

/-- The play-time roll of `updatePlayTime`: fold the elapsed session
time into `totalPlayTime` when a session start exists. -/
def rollPlayTime (profile : PlayerProfile) (sessionStart : Option ℚ) (now : ℚ) :
    PlayerProfile :=
  match sessionStart with
  | some start => { profile with totalPlayTime := profile.totalPlayTime + (now - start) }
  | none => profile

/-- Embedding of `savePlayerData`: no cached profile returns false;
otherwise `updatePlayTime` rolls the session into the cached profile and
resets the session clock, then the updated profile is written back
(`saveOk = false` models a rejected `SetAsync`: the write is dropped
but the cache-side playtime update has already happened). -/
def savePlayerData (svc : PlayerDataService) (playerId : ℤ) (now : ℚ) (saveOk : Bool) :
    PlayerDataService × Bool :=
  match svc.playerProfiles playerId with
  | none => (svc, false)
  | some profile =>
    let profile2 := rollPlayTime profile (svc.sessionStartTimes playerId) now
    let svc1 : PlayerDataService :=
      { svc with
          playerProfiles := fun p => if p = playerId then some profile2 else svc.playerProfiles p
        , sessionStartTimes := fun p =>
            if p = playerId then
              match svc.sessionStartTimes playerId with
              | some _ => some now
              | none => none
            else svc.sessionStartTimes p }
    if saveOk then
      ({ svc1 with dataStore := fun key =>
          if key = profileKey playerId then some profile2 else svc.dataStore key }, true)
    else (svc1, false)

/-- C9: loading a player absent from persistence yields the default
profile with level 1 and experience 0; and after a successful save of a
cached profile, a load against the same store returns exactly the saved
values (the persisted profile with its play time rolled at save time),
with `lastLogin` refreshed to the load time. -/
theorem profile_default_and_roundtrip
    (svc : PlayerDataService) (pid : ℤ) (name : String) (t0 : ℚ)
    (svc2 : PlayerDataService) (pid2 : ℤ) (name2 : String)
    (profile : PlayerProfile) (t1 t2 : ℚ)
    (habsent : svc.dataStore (profileKey pid) = none)
    (hcached : svc2.playerProfiles pid2 = some profile) :
    (loadPlayerData svc pid name t0 true).2 = some (createDefaultProfile pid name t0)
    ∧ (createDefaultProfile pid name t0).level = 1
    ∧ (createDefaultProfile pid name t0).experience = 0
    ∧ (savePlayerData svc2 pid2 t1 true).2 = true
    ∧ (loadPlayerData (savePlayerData svc2 pid2 t1 true).1 pid2 name2 t2 true).2
        = some { rollPlayTime profile (svc2.sessionStartTimes pid2) t1 with
                 lastLogin := t2 } := by
  have hload : (loadPlayerData svc pid name t0 true).2
      = some (createDefaultProfile pid name t0) := by
    unfold loadPlayerData
    rw [if_pos rfl, habsent]
  have hsave1 : (savePlayerData svc2 pid2 t1 true).1.dataStore (profileKey pid2)
      = some (rollPlayTime profile (svc2.sessionStartTimes pid2) t1) := by
    unfold savePlayerData
    rw [hcached]
    simp
  have hsave2 : (savePlayerData svc2 pid2 t1 true).2 = true := by
    unfold savePlayerData
    rw [hcached]
    simp
  refine ⟨hload, rfl, rfl, hsave2, ?_⟩
  unfold loadPlayerData
  rw [if_pos rfl, hsave1]


/-- A concrete cached profile for the C9 witness. -/
def witnessProfile : PlayerProfile :=
  { playerId := 7
  , playerName := "Vex"
  , level := 3
  , experience := 250
  , currency := fun c => if c = "gold" then some 40 else none
  , inventory := [("sword", 1)]
  , settings := []
  , lastLogin := 5
  , totalPlayTime := 40 }

/-- A service state with empty persistence and one cached profile. -/
def witnessDataService : PlayerDataService :=
  { dataStore := fun _ => none
  , playerProfiles := fun p => if p = 7 then some witnessProfile else none
  , sessionStartTimes := fun p => if p = 7 then some 5 else none }

/-- C9 witness: loading the unknown player 2 yields the level-1 default
profile; saving the cached profile of player 7 at time 12 and loading it
back at time 20 returns the saved values with the refreshed last
login. -/
theorem profile_default_and_roundtrip_witness :
    (loadPlayerData witnessDataService 2 "Newbie" 11 true).2
        = some (createDefaultProfile 2 "Newbie" 11)
    ∧ (createDefaultProfile 2 "Newbie" 11).level = 1
    ∧ (createDefaultProfile 2 "Newbie" 11).experience = 0
    ∧ (savePlayerData witnessDataService 7 12 true).2 = true
    ∧ (loadPlayerData (savePlayerData witnessDataService 7 12 true).1 7 "Vex" 20 true).2
        = some { rollPlayTime witnessProfile (witnessDataService.sessionStartTimes 7) 12 with
                 lastLogin := 20 } :=
  profile_default_and_roundtrip witnessDataService 2 "Newbie" 11
    witnessDataService 7 "Vex" witnessProfile 12 20 rfl rfl

end NXT
